import Mathlib

/-!
Verification of the PyCabArc cabinet writer (PyCabArc.py).

Shallow embedding conventions:
* byte strings are `List Nat` (each element a byte value);
* Python machine integers are `Nat` with explicit masking where the source masks;
* the stateful pipeline (`IOStream`) is modelled as explicit state passing.

Source references are to PyCabArc.py line numbers.
-/

namespace PyCabArc

/-- Little-endian numeric value of a byte list (least significant byte first).
Models the `ctypes` casts of raw memory to `c_ulonglong` / `c_ulong` on a
little-endian machine (source lines 144, 150). -/
def leVal (s : List Nat) : Nat := s.foldr (fun b acc => b + 256 * acc) 0

/-- `struct.pack('<H', n)`: two little-endian bytes. -/
def pack2 (n : Nat) : List Nat := [n % 256, n / 256 % 256]

/-- `struct.pack('<L', n)`: four little-endian bytes. -/
def pack4 (n : Nat) : List Nat :=
  [n % 256, n / 256 % 256, n / 65536 % 256, n / 16777216 % 256]

/-- Trailing 1..3-byte loop of `Checksum` (source lines 152-156): `j` starts at
the number of remaining bytes and is decremented before each use, so the byte
with `t.length` successors is shifted left by `t.length * 8` bits. -/
def csumBytes : List Nat → Nat → Nat
  | [], csum => csum
  | b :: t, csum => csumBytes t (csum ^^^ (b <<< (t.length * 8)))

/-- Remainder handling of `Checksum` (`rem = len(s) % 8`, source lines 147-156):
a 4-byte little-endian chunk when at least 4 bytes remain, then the byte loop. -/
def csumTail (s : List Nat) (csum : Nat) : Nat :=
  if 4 ≤ s.length then csumBytes (s.drop 4) (csum ^^^ leVal (s.take 4))
  else csumBytes s csum

/-- Main word loop of `Checksum` (`loops = len(s) / 8`, source lines 141-146):
XOR 8-byte little-endian words into the accumulator, then the remainder. -/
def csumWords (s : List Nat) (csum : Nat) : Nat :=
  if _h : 8 ≤ s.length then csumWords (s.drop 8) (csum ^^^ leVal (s.take 8))
  else csumTail s csum
termination_by s.length
decreasing_by simp only [List.length_drop]; omega

/-- `Checksum(s, seed)` (source lines 138-157).  The final value is
`(csum & 0xFFFFFFFF) ^ (csum >> 32)`; Python's `abs` is the identity here
because the accumulator is a nonnegative integer throughout. -/
def Checksum (s : List Nat) (seed : Nat) : Nat :=
  let csum := csumWords s seed
  (csum &&& 4294967295) ^^^ (csum >>> 32)

/-- The checksum algorithm as worded by the spec (§4.2), for comparison with
the source translation `Checksum`: process `len/8` little-endian 64-bit words
into an accumulator seeded with the incoming value, then a 4-byte chunk when at
least four bytes remain, then the remaining 1..3 bytes each shifted by `j*8`
with `j` counting down from `rem % 4 - 1` to `0`, and finally fold with
`(acc & 0xFFFFFFFF) XOR (acc >> 32)`. -/
def specChecksum (s : List Nat) (seed : Nat) : Nat :=
  let nw := s.length / 8
  let acc := (List.range nw).foldl (fun a k => a ^^^ leVal ((s.drop (8 * k)).take 8)) seed
  let r := s.drop (8 * nw)
  let acc2 := if 4 ≤ r.length then acc ^^^ leVal (r.take 4) else acc
  let r2 := if 4 ≤ r.length then r.drop 4 else r
  let acc3 := (r2.zip (List.range r2.length).reverse).foldl
      (fun a bj => a ^^^ (bj.1 <<< (bj.2 * 8))) acc2
  (acc3 &&& 4294967295) ^^^ (acc3 >>> 32)

/-- CFDATA record (source lines 281-325): checksum, compressed length,
uncompressed length; `data` holds the full payload string. -/
structure CFDATA where
  csum : Nat
  cbData : Nat
  cbUncomp : Nat
  data : List Nat
deriving Repr, DecidableEq

/-- `CFDATA.size` (line 291): on-wire size of the record. -/
def CFDATA.size (x : CFDATA) : Nat := 8 + x.cbData

/-- Checksum stored by `CFDATA.Write` (lines 316-320): first over
`data[:cbData]` with seed 0, then with that seed over the four packed length
bytes (`s[4:]` of `struct.pack('<L2H', csum, cbData, cbUncomp)`). -/
def CFDATA.storedCsum (x : CFDATA) : Nat :=
  Checksum (pack2 x.cbData ++ pack2 x.cbUncomp) (Checksum (x.data.take x.cbData) 0)

/-- Bytes appended by `CFDATA.Write(fp, data=1)` (lines 311-324): a record
with `cbData == 0` is discarded without writing anything; otherwise the 8
header bytes followed by `data[:cbData]`. -/
def CFDATA.writeBytes (x : CFDATA) : List Nat :=
  if x.cbData = 0 then []
  else pack4 x.storedCsum ++ pack2 x.cbData ++ pack2 x.cbUncomp ++ x.data.take x.cbData

/-- Payload bytes `CFDATA.Write` emits after the record header: `data[:cbData]`
(line 323). -/
def CFDATA.writtenPayload (x : CFDATA) : List Nat := x.data.take x.cbData

/-- Outcome of one `IOStream._write` record emission (lines 478-505). -/
inductive WOut where
  /-- The record fits: `_cabsize() + x.size() < limit` (lines 487-489). -/
  | normal (x : CFDATA)
  /-- Volume split (lines 490-503): `head` is written into the current
  volume, `tail` becomes the first record of the next volume's first folder. -/
  | split (head tail : CFDATA)
  /-- `limit - _cabsize() - 8` would be negative, so `struct.pack` raises;
  modelled explicitly because `Nat` subtraction would silently truncate. -/
  | stuck
deriving Repr, DecidableEq

/-- Record construction and volume-split decision of `IOStream._write`
(lines 484-503).  `cabsize` is `p._cabsize()` before the record, `ulen` is
`len(p.buf)` before compression (`p.ulen`, line 442), and `s` is the
(possibly compressed) payload, so `clen = len(s)`.  In the split branch the
head is `x` with `cbUncomp = 0` and `cbData = limit - cabsize - 8` (lines
490-491, payload still the full `s`, of which `Write` emits `s[:cbData]`),
and the tail is `CFDATA(s[head.cbData:], ulen, clen - head.cbData)`
(line 495). -/
def IOStream.writeRec (limit cabsize ulen : Nat) (s : List Nat) : WOut :=
  if cabsize + (8 + s.length) < limit then .normal ⟨0, s.length, ulen, s⟩
  else if limit < cabsize + 8 then .stuck
  else
    .split ⟨0, limit - cabsize - 8, 0, s⟩
      ⟨0, s.length - (limit - cabsize - 8), ulen, s.drop (limit - cabsize - 8)⟩

/-- A finalized cabinet volume, projected to the quantities the claims speak
about: the number of bytes of the written volume file (`diskLen`, justified
by the serialization length lemmas below) and the `cbCabinet` field of the
header it was written with (`cbCab`). -/
structure VolRec where
  diskLen : Nat
  cbCab : Nat
deriving Repr, DecidableEq

/-- State of the record-emission machine (`IOStream`, lines 366-513):
`hsize` is the current header size `p.C.ch[-1].size()` (an input of the
machine - header contents are modelled separately), `scratch` the bytes
written to the current temporary file `p.fout[-1]` (so `tell()` is
`scratch.length`), `count` the current folder's `cCFData`, `recs` the records
actually written for the current folder, `vols` the volumes finalized by
`_copycab(last=0)` so far, and `stuck` records a `struct.error` raised by a
negative head length. -/
structure PState where
  hsize : Nat
  scratch : List Nat
  count : Nat
  recs : List CFDATA
  vols : List VolRec
  stuck : Bool
deriving Repr, DecidableEq

/-- One `IOStream._write` emission (lines 478-505) against the volume budget:
the folder's `cCFData` is incremented before the branch (line 486); a fitting
record is written into the scratch file (`CFDATA.Write` elides it when empty,
lines 313-315); otherwise the partial head record is written, the volume is
finalized by `_copycab` (its header's `cbCabinet` field was set to `limit` by
`AddHeader`, line 719, and is never touched again for a non-final volume),
and the tail record is written into a fresh scratch file as the single record
of a fresh folder (`cCFData = 1`, lines 496-503) under a new header of size
`newH`. -/
def emit (limit newH : Nat) (st : PState) (ulen : Nat) (s : List Nat) : PState :=
  if st.stuck then st else
  let cnt := st.count + 1
  let cabsize := st.scratch.length + st.hsize
  if cabsize + (8 + s.length) < limit then
    { st with count := cnt,
              scratch := st.scratch ++ CFDATA.writeBytes ⟨0, s.length, ulen, s⟩,
              recs := st.recs ++ if s.length = 0 then [] else [⟨0, s.length, ulen, s⟩] }
  else if limit < cabsize + 8 then
    { st with count := cnt, stuck := true }
  else
    let hb := limit - cabsize - 8
    let head : CFDATA := ⟨0, hb, 0, s⟩
    let tail : CFDATA := ⟨0, s.length - hb, ulen, s.drop hb⟩
    { hsize := newH,
      scratch := tail.writeBytes,
      count := 1,
      recs := if s.length - hb = 0 then [] else [tail],
      vols := st.vols ++ [⟨st.hsize + (st.scratch ++ head.writeBytes).length, limit⟩],
      stuck := false }

/-- Run the emission machine over a list of `(ulen, payload)` blocks starting
from an empty scratch file under a header of size `h0`. -/
def runBlocks (limit newH h0 : Nat) (blocks : List (Nat × List Nat)) : PState :=
  blocks.foldl (fun st b => emit limit newH st b.1 b.2) ⟨h0, [], 0, [], [], false⟩

/-- Fragmentation of a folder's uncompressed stream into the buffers passed
to `_write` (the `_read`/`flush` loop, lines 421-439 and 507-513): a full
32768-byte block is emitted each time the buffer fills, and the final
`_write(end=1)` - from `AddFolder` or `Flush` - always emits the remaining,
possibly empty, buffer. -/
def storeBlocks (input : List Nat) : List (List Nat) :=
  if _h : 32768 ≤ input.length then input.take 32768 :: storeBlocks (input.drop 32768)
  else [input]
termination_by input.length
decreasing_by simp only [List.length_drop]; omega

/-- A store-compressed folder run: `_filter` (lines 441-448) leaves the
buffer unchanged when `typeCompress == 0`, so each block reaches `_write`
with `ulen = clen = len(buf)` and payload the block itself. -/
def storeRun (limit newH h0 : Nat) (input : List Nat) : PState :=
  runBlocks limit newH h0 ((storeBlocks input).map fun b => (b.length, b))

/-- Total scratch-file footprint of a block list: 8 header bytes plus the
payload for each record. -/
def sumSizes (blocks : List (Nat × List Nat)) : Nat :=
  (blocks.map fun b => 8 + b.2.length).sum

/-- `CFFILE` metadata (lines 328-363). -/
structure CFFILE where
  cbFile : Nat
  uoffFolderStart : Nat
  iFolder : Nat
  date : Nat
  time : Nat
  attrs : Nat
  Name : List Nat
deriving Repr, DecidableEq

/-- `CFFILE.size` (line 342): 16 fixed bytes plus NUL-terminated name. -/
def CFFILE.size (f : CFFILE) : Nat := 16 + f.Name.length + 1

/-- Bytes of `CFFILE.Write` (lines 360-363): `struct.pack('<2L4H', ...)`
followed by the NUL-terminated name. -/
def CFFILE.writeBytes (f : CFFILE) : List Nat :=
  pack4 f.cbFile ++ pack4 f.uoffFolderStart ++ pack2 f.iFolder ++ pack2 f.date
    ++ pack2 f.time ++ pack2 f.attrs ++ f.Name ++ [0]

/-- `CFFOLDER.Write` normalization (lines 540-541): an MS-ZIP level tag
(2..9) is written as the flag value 1; store and LZX tags are unchanged. -/
def writeTypeCompress (t : Nat) : Nat := if 1 < t ∧ t < 10 then 1 else t

/-- `CFFOLDER` metadata (lines 516-531). -/
structure CFFOLDER where
  coffCabStart : Nat
  cCFData : Nat
  typeCompress : Nat
  Files : List CFFILE
deriving Repr, DecidableEq

/-- `CFFOLDER.size` (lines 527-531): 8 fixed bytes plus its files. -/
def CFFOLDER.size (fo : CFFOLDER) : Nat := 8 + (fo.Files.map CFFILE.size).sum

/-- Bytes of `CFFOLDER.Write` (lines 539-543). -/
def CFFOLDER.writeBytes (fo : CFFOLDER) : List Nat :=
  pack4 fo.coffCabStart ++ pack2 fo.cCFData ++ pack2 (writeTypeCompress fo.typeCompress)

/-- `CFHEADER` (lines 546-572).  The `Folders` list carries the files, as in
the source; the `IO` back-reference is not part of the serialized state. -/
structure CFHEADER where
  reserved1 : Nat
  cbCabinet : Nat
  reserved2 : Nat
  coffFiles : Nat
  reserved3 : Nat
  versionMinor : Nat
  versionMajor : Nat
  cFolders : Nat
  cFiles : Nat
  flags : Nat
  setID : Nat
  iCabinet : Nat
  cbCFHeader : Nat
  cbCFFolder : Nat
  cbCFData : Nat
  abReserve : List Nat
  szCabinetPrev : List Nat
  szDiskPrev : List Nat
  szCabinetNext : List Nat
  szDiskNext : List Nat
  Folders : List CFFOLDER
deriving Repr, DecidableEq

/-- `CFHEADER.size1` (lines 576-584): the 36 fixed bytes plus the optional
reserved area and prev/next name strings (the name fields already carry
their terminating NUL, as in the source, lines 567-570). -/
def CFHEADER.size1 (p : CFHEADER) : Nat :=
  36 + (if p.flags &&& 1 ≠ 0 then p.szCabinetPrev.length + p.szDiskPrev.length else 0)
     + (if p.flags &&& 2 ≠ 0 then p.szCabinetNext.length + p.szDiskNext.length else 0)
     + (if p.flags &&& 4 ≠ 0 then 4 + p.cbCFHeader else 0)

/-- `CFHEADER.size2` (lines 586-590). -/
def CFHEADER.size2 (p : CFHEADER) : Nat := (p.Folders.map CFFOLDER.size).sum

/-- `CFHEADER.size` (line 574). -/
def CFHEADER.size (p : CFHEADER) : Nat := p.size1 + p.size2

/-- The signature bytes `'MSCF'`. -/
def mscf : List Nat := [77, 83, 67, 70]

/-- Bytes laid down by `CFHEADER.Write` (lines 614-636): the 36-byte
`struct.pack('<4s5l2B5H', ...)`, optional reserved area, prev/next names,
all folder entries, all file entries.  `Write` makes two passes over the
same region; both emit strings of identical length (only the `coffFiles`
value differs), so a single pass with the final `coffFiles` models the
written file. -/
def CFHEADER.writeBytes (p : CFHEADER) : List Nat :=
  mscf ++ pack4 p.reserved1 ++ pack4 p.cbCabinet ++ pack4 p.reserved2
    ++ pack4 p.coffFiles ++ pack4 p.reserved3
    ++ [p.versionMinor % 256, p.versionMajor % 256]
    ++ pack2 p.cFolders ++ pack2 p.cFiles ++ pack2 p.flags ++ pack2 p.setID
    ++ pack2 p.iCabinet
    ++ (if p.flags &&& 4 ≠ 0 then
          pack2 p.cbCFHeader ++ [p.cbCFFolder % 256, p.cbCFData % 256] ++ p.abReserve
        else [])
    ++ (if p.flags &&& 1 ≠ 0 then p.szCabinetPrev ++ p.szDiskPrev else [])
    ++ (if p.flags &&& 2 ≠ 0 then p.szCabinetNext ++ p.szDiskNext else [])
    ++ (p.Folders.map CFFOLDER.writeBytes).flatten
    ++ (p.Folders.map (fun fo => (fo.Files.map CFFILE.writeBytes).flatten)).flatten

/-- `Cabinet.Flush` on the header (lines 768-769): clear the has-next flag
with `flags ^= 0x2` and set `cbCabinet` to the scratch size (`fout.tell()`)
plus the header's own size. -/
def flushHeader (hd : CFHEADER) (scratch : List Nat) : CFHEADER :=
  let hd2 : CFHEADER := { hd with flags := hd.flags ^^^ 2 }
  { hd2 with cbCabinet := scratch.length + hd2.size }

/-- The final volume file written by `Cabinet.Flush` via `_copycab(1)`
(lines 770-771, 467-475): the header followed by the scratch records, which
`_copycab` re-serializes byte-identically (the checksum is recomputed from
the same data). -/
def flushBytes (hd : CFHEADER) (scratch : List Nat) : List Nat :=
  (flushHeader hd scratch).writeBytes ++ scratch

/-- Membership test of `_copycab`'s marking loop (lines 456-457): a file is
moved to `opened` when its bytes lie in (or extend into) the folder's last
data block. -/
def inSplitRegion (cCFData : Nat) (x : CFFILE) : Bool :=
  decide ((cCFData - 1) * 32768 ≤ x.uoffFolderStart) ||
    decide ((cCFData - 1) * 32768 ≤ x.uoffFolderStart + x.cbFile)

/-- Per-file `iFolder` update of `_copycab` (lines 458-465) for a file in the
split region: a continuation value (0xFFFD or 0xFFFF) becomes 0xFFFD when
this is the last volume and 0xFFFF otherwise; any other value becomes 0xFFFE
unless this is the last volume. -/
def markIFolder (last : Bool) (i : Nat) : Nat :=
  if i = 0xFFFD ∨ i = 0xFFFF then (if last then 0xFFFD else 0xFFFF)
  else (if last then i else 0xFFFE)

/-- The `_copycab` marking pass (lines 453-466): every file in the split
region has its `iFolder` updated and is appended to `opened`.  Returns the
updated file list and the `opened` list. -/
def copycabMark (last : Bool) (cCFData : Nat) (files : List CFFILE) :
    List CFFILE × List CFFILE :=
  (files.map fun x =>
      if inSplitRegion cCFData x then { x with iFolder := markIFolder last x.iFolder } else x,
   (files.filter (inSplitRegion cCFData)).map fun x =>
      { x with iFolder := markIFolder last x.iFolder })

/-- The restore pass after the volume header is written (lines 469-471):
every `opened` file whose `iFolder` is 0xFFFE or 0xFFFF is reset to 0xFFFD
for reference in the next volume. -/
def restoreIFolder (i : Nat) : Nat := if i = 0xFFFE ∨ i = 0xFFFF then 0xFFFD else i

/-- `MSZIP.compress` (lines 234-242): frame the raw DEFLATE stream with the
`'CK'` signature; when the framed result exceeds 32780 bytes, emit a stored
DEFLATE block instead: the 7 bytes `43 4B 01 00 80 FF 7F` followed by the
raw input.  `z1`, `z2`, `z3` stand for the byte strings returned by the
external zlib calls `obj.compress(s)`, `obj.flush(Z_SYNC_FLUSH)` and
`obj.copy().flush(Z_FINISH)`. -/
def MSZIP.compress (z1 z2 z3 s : List Nat) : List Nat :=
  let buf := [67, 75] ++ z1 ++ z2 ++ z3
  if 32780 < buf.length then [67, 75, 1, 0, 128, 255, 127] ++ s else buf

/-- Error kinds raised by `Cabinet._additem` (lines 672-677). -/
inductive CabErr where
  | noHeader
  | noFolder
  | closedCab
deriving Repr, DecidableEq

/-- Archive-level state read or written by `Cabinet._additem`: the item
dictionary, the pending file queue (`IOStream._files`), and the presence
flags its guards test. -/
structure AddState where
  idict : List (List Nat × CFFILE)
  queue : List CFFILE
  hasHeader : Bool
  hasFolder : Bool
  ioOpen : Bool
deriving Repr, DecidableEq

/-- `Cabinet._additem` (lines 670-703).  The name encoding step (lines
684-688) is supplied by the caller: `nameBytes` is the stored name (the
original when it is cp850-representable, otherwise its UTF-8 encoding) and
`cp850ok` says which case holds; `extAttrs` stands for the filesystem
attribute bits merged in lines 692-698.  A stored name longer than 255 bytes
is skipped with a warning (lines 689-691): the call returns with the archive
state unchanged, before the dictionary insert and queue push (lines
701-703). -/
def Cabinet.additem (st : AddState) (itemname nameBytes : List Nat)
    (cp850ok : Bool) (extAttrs : Nat) : Except CabErr AddState :=
  if st.hasHeader = false then .error .noHeader
  else if st.hasFolder = false then .error .noFolder
  else if st.ioOpen = false then .error .closedCab
  else if 255 < nameBytes.length then .ok st
  else
    let f : CFFILE :=
      { cbFile := 0, uoffFolderStart := 0, iFolder := 0, date := 0, time := 0,
        attrs := (if cp850ok then 32 else 32 ||| 128) ||| extAttrs,
        Name := nameBytes }
    .ok { st with idict := (itemname, f) :: st.idict, queue := st.queue ++ [f] }

/-- The counters of the `IOStream` helper (lines 388-389): total bytes read,
bytes written, files opened, cabinets written. -/
structure IOCounters where
  c1 : Nat
  c2 : Nat
  c3 : Nat
  c4 : Nat
deriving Repr, DecidableEq

/-- `Cabinet.Stats` (lines 776-781).  While the helper is present the ratio
`float(c2)/float(c1)` is computed; `none` models the `ZeroDivisionError`
raised when `c1 == 0`.  After `Close` has replaced the helper with 0
(line 774) the all-zeros tuple is returned. -/
def Cabinet.Stats (x : Option IOCounters) : Option (Nat × Nat × Nat × Nat × ℚ) :=
  match x with
  | some c =>
      if c.c1 = 0 then none
      else some (c.c1, c.c2, c.c3, c.c4, (c.c2 : ℚ) / (c.c1 : ℚ))
  | none => some (0, 0, 0, 0, 0)

/-- `Cabinet.Close` (lines 773-774): `p.IO = 0`. -/
def Cabinet.Close (_x : Option IOCounters) : Option IOCounters := none

/-- `os.path.splitdrive(name)[1]` under the Windows path rules the source
relies on (line 270; the function itself is Python library code, external to
this repository): when the second character is a colon, the two-character
drive specifier is removed. -/
def splitdrive (name : List Char) : List Char :=
  match name with
  | _a :: ':' :: rest => rest
  | _ => name

/-- `name.replace(pat, '')` for a nonempty pattern: remove every
left-to-right non-overlapping occurrence (line 277). -/
def removeAll (pat : List Char) (s : List Char) : List Char :=
  if _hp : pat = [] then s
  else
    match s with
    | [] => []
    | c :: rest =>
        if pat.isPrefixOf (c :: rest) then removeAll pat ((c :: rest).drop pat.length)
        else c :: removeAll pat rest
termination_by s.length
decreasing_by
  all_goals simp only [List.length_drop, List.length_cons]
  · have : 0 < pat.length := List.length_pos.mpr _hp
    omega
  · omega

/-- `name[1 + name.rfind('\x5c'):]` (line 275): the suffix after the last
backslash, or the whole string when there is none. -/
def afterLastBackslash (s : List Char) : List Char :=
  (s.reverse.takeWhile (fun c => c ≠ '\\')).reverse

/-- `Disk2CabName` (lines 265-278).  `none` models the `IndexError` raised
by the `name[0]` test (line 272) when the drive-stripped, slash-normalized
name is empty. -/
def Disk2CabName (name : List Char) (strip : List Char) : Option (List Char) :=
  let n1 := (splitdrive name).map fun c => if c = '/' then '\\' else c
  match n1 with
  | [] => none
  | c :: rest =>
      let n2 := if c = '\\' then rest else c :: rest
      if strip = ['*'] then some (afterLastBackslash n2)
      else if strip ≠ [] then some (removeAll strip n2)
      else some n2

/-- A concrete file entry (one-byte name `'a'`, 100 payload bytes at folder
offset 0, normal folder index 5) used to instantiate the continuation-marker
statements. -/
def c4file : CFFILE :=
  { cbFile := 100, uoffFolderStart := 0, iFolder := 5, date := 0, time := 0, attrs := 32,
    Name := [97] }

/-- A concrete header (no reserved area, has-next flag set, one-byte next
name) used to instantiate the flush statements. -/
def hd0 : CFHEADER :=
  { reserved1 := 0, cbCabinet := 0, reserved2 := 0, coffFiles := 0, reserved3 := 0,
    versionMinor := 3, versionMajor := 1, cFolders := 0, cFiles := 0, flags := 2,
    setID := 1234, iCabinet := 0, cbCFHeader := 0, cbCFFolder := 0, cbCFData := 0,
    abReserve := [], szCabinetPrev := [0], szDiskPrev := [0], szCabinetNext := [97, 0],
    szDiskNext := [0], Folders := [] }

/-- A 255-byte item name (`'a'` repeated), the longest `_additem` accepts
(line 689). -/
def longName : List Nat := List.replicate 255 97

/-- One of the 183 long-named files of the final-volume overflow run; the
fields that do not affect the serialized entry length (size, offset, date,
time) carry representative values, and `iFolder` is the continuation value
0xFFFD every moved file holds when the last volume's header is written
(lines 458-461, 469-471). -/
def smallFile : CFFILE :=
  { cbFile := 109, uoffFolderStart := 0, iFolder := 0xFFFD, date := 0, time := 0,
    attrs := 32, Name := longName }

/-- The header `AddHeader` builds for the second volume of the overflow run
(cabinet named `'a'`, no label, no reserved area): has-prev and has-next
flags (lines 720-730), `cbCabinet = limit` (line 719), and the fresh folder
the split creates (lines 498-502) holding the 183 moved file entries
(182 files of 109 bytes and one of 162, 20,000 content bytes in all). -/
def hdOverflow : CFHEADER :=
  { reserved1 := 0, cbCabinet := 50000, reserved2 := 0, coffFiles := 0, reserved3 := 0,
    versionMinor := 3, versionMajor := 1, cFolders := 1, cFiles := 183, flags := 3,
    setID := 1234, iCabinet := 1, cbCFHeader := 0, cbCFFolder := 0, cbCFData := 0,
    abReserve := [], szCabinetPrev := [97, 0], szDiskPrev := [0],
    szCabinetNext := [97, 0], szDiskNext := [0],
    Folders := [⟨0, 1, 0,
      List.replicate 182 smallFile ++ [{ smallFile with cbFile := 162 }]⟩] }

theorem csumBytes_eq_zipFold (l : List Nat) (c : Nat) :
    csumBytes l c = (l.zip (List.range l.length).reverse).foldl
      (fun a bj => a ^^^ (bj.1 <<< (bj.2 * 8))) c := by
  induction l generalizing c with
  | nil => rfl
  | cons b t ih =>
      have hr : (List.range (t.length + 1)).reverse = t.length :: (List.range t.length).reverse := by
        rw [List.range_succ, List.reverse_append]; rfl
      simp only [csumBytes, List.length_cons, hr, List.zip_cons_cons, List.foldl_cons]
      exact ih _

theorem csumWords_eq_rangeFold (s : List Nat) (c : Nat) :
    csumWords s c = csumTail (s.drop (8 * (s.length / 8)))
      ((List.range (s.length / 8)).foldl
        (fun a k => a ^^^ leVal ((s.drop (8 * k)).take 8)) c) := by
  by_cases h : 8 ≤ s.length
  · have hdiv : s.length / 8 = (s.length - 8) / 8 + 1 := by
      omega
    have hlen : (s.drop 8).length = s.length - 8 := by simp
    have harg : ∀ k : Nat, (s.drop 8).drop (8 * k) = s.drop (8 * (k + 1)) := by
      intro k
      rw [List.drop_drop]
      congr 1
      ring
    have hfun : (fun (a k : Nat) => a ^^^ leVal (((s.drop 8).drop (8 * k)).take 8))
        = fun (a k : Nat) => a ^^^ leVal ((s.drop (8 * (k + 1))).take 8) := by
      funext a k
      rw [harg]
    rw [csumWords, dif_pos h, csumWords_eq_rangeFold (s.drop 8), hlen, hdiv,
      List.range_succ_eq_map, List.foldl_cons, List.foldl_map, hfun, harg]
    simp only [Nat.succ_eq_add_one, Nat.mul_zero, List.drop_zero]
  · have hdiv : s.length / 8 = 0 := Nat.div_eq_of_lt (by omega)
    rw [csumWords, dif_neg h, hdiv]
    simp
termination_by s.length
decreasing_by simp only [List.length_drop]; omega

/-- The source `Checksum` computes exactly the algorithm worded in spec §4.2. -/
theorem Checksum_eq_specChecksum (s : List Nat) (seed : Nat) :
    Checksum s seed = specChecksum s seed := by
  unfold Checksum specChecksum
  rw [csumWords_eq_rangeFold]
  set acc := (List.range (s.length / 8)).foldl
      (fun a k => a ^^^ leVal ((s.drop (8 * k)).take 8)) seed with hacc
  set r := s.drop (8 * (s.length / 8)) with hrdef
  by_cases h4 : 4 ≤ r.length
  · simp only [csumTail, if_pos h4, csumBytes_eq_zipFold]
  · simp only [csumTail, if_neg h4, csumBytes_eq_zipFold]

theorem CFDATA.writeBytes_length (x : CFDATA) :
    x.writeBytes.length = if x.cbData = 0 then 0 else 8 + min x.cbData x.data.length := by
  by_cases h : x.cbData = 0
  · simp [CFDATA.writeBytes, h]
  · simp only [CFDATA.writeBytes, if_neg h, List.length_append, List.length_take, pack4,
      pack2, List.length_cons, List.length_nil]

theorem CFFILE.writeBytes_size (f : CFFILE) : f.writeBytes.length = f.size := by
  simp [CFFILE.writeBytes, CFFILE.size, pack4, pack2]
  omega

theorem CFFOLDER.writeBytes_eight (fo : CFFOLDER) : fo.writeBytes.length = 8 := by
  simp [CFFOLDER.writeBytes, pack4, pack2]

theorem CFHEADER.writeBytes_size_eq (p : CFHEADER)
    (hres : p.abReserve.length = p.cbCFHeader) :
    p.writeBytes.length = p.size := by
  have hfold : ∀ fos : List CFFOLDER,
      ((fos.map CFFOLDER.writeBytes).flatten).length
        + ((fos.map fun fo => (fo.Files.map CFFILE.writeBytes).flatten).flatten).length
      = (fos.map CFFOLDER.size).sum := by
    intro fos
    induction fos with
    | nil => simp
    | cons fo fos ih =>
        simp only [List.map_cons, List.flatten_cons, List.length_append, List.sum_cons]
        rw [CFFOLDER.writeBytes_eight]
        have hfiles : ((fo.Files.map CFFILE.writeBytes).flatten).length
            = (fo.Files.map CFFILE.size).sum := by
          induction fo.Files with
          | nil => simp
          | cons f fs ihf =>
              simp only [List.map_cons, List.flatten_cons, List.length_append, List.sum_cons,
                CFFILE.writeBytes_size, ihf]
        simp only [CFFOLDER.size]
        omega
  simp only [CFHEADER.writeBytes, CFHEADER.size, CFHEADER.size1, CFHEADER.size2,
    List.length_append]
  rw [← hfold p.Folders]
  split_ifs <;>
    simp only [List.length_append, List.length_cons, List.length_nil, mscf, pack4, pack2,
      hres] <;>
    omega

theorem storeBlocks_replicate (n : Nat) :
    storeBlocks (List.replicate n (0 : Nat)) =
      List.replicate (n / 32768) (List.replicate 32768 0)
        ++ [List.replicate (n % 32768) 0] := by
  by_cases h : 32768 ≤ n
  · have e1 : (List.replicate n (0 : Nat)).take 32768 = List.replicate 32768 0 := by
      rw [List.take_replicate]
      congr 1
      omega
    have e2 : (List.replicate n (0 : Nat)).drop 32768 = List.replicate (n - 32768) 0 := by
      rw [List.drop_replicate]
    rw [storeBlocks.eq_def, dif_pos (by simpa using h), e1, e2,
      storeBlocks_replicate (n - 32768)]
    have hq : n / 32768 = (n - 32768) / 32768 + 1 := by omega
    have hm : n % 32768 = (n - 32768) % 32768 := by omega
    rw [hq, hm, List.replicate_succ (List.replicate 32768 0) ((n - 32768) / 32768),
      List.cons_append]
  · have h1 : n / 32768 = 0 := by omega
    have h2 : n % 32768 = n := by omega
    rw [storeBlocks.eq_def, dif_neg (by simpa using h), h1, h2, List.replicate_zero,
      List.nil_append]
termination_by n
decreasing_by omega

theorem foldl_emit_no_split (limit newH : Nat) (blocks : List (Nat × List Nat)) :
    ∀ st : PState, st.stuck = false →
      st.hsize + st.scratch.length + sumSizes blocks < limit →
      blocks.foldl (fun st b => emit limit newH st b.1 b.2) st =
        { hsize := st.hsize,
          scratch := st.scratch ++
            (blocks.map fun b => CFDATA.writeBytes ⟨0, b.2.length, b.1, b.2⟩).flatten,
          count := st.count + blocks.length,
          recs := st.recs ++
            (blocks.filter fun b => b.2.length != 0).map fun b => ⟨0, b.2.length, b.1, b.2⟩,
          vols := st.vols,
          stuck := false } := by
  induction blocks with
  | nil =>
      intro st h1 h2
      simp [← h1]
  | cons b bs ih =>
      intro st h1 h2
      have hsum : sumSizes (b :: bs) = (8 + b.2.length) + sumSizes bs := by
        simp [sumSizes]
      have hcond : st.scratch.length + st.hsize + (8 + b.2.length) < limit := by
        omega
      have hemit : emit limit newH st b.1 b.2 = { st with
          count := st.count + 1,
          scratch := st.scratch ++ CFDATA.writeBytes ⟨0, b.2.length, b.1, b.2⟩,
          recs := st.recs ++ if b.2.length = 0 then [] else [⟨0, b.2.length, b.1, b.2⟩] } := by
        unfold emit
        rw [h1]
        simp only [Bool.false_eq_true, if_false, if_pos hcond]
      have hwb : (CFDATA.writeBytes ⟨0, b.2.length, b.1, b.2⟩).length
          = if b.2.length = 0 then 0 else 8 + b.2.length := by
        rw [CFDATA.writeBytes_length]
        simp
      rw [List.foldl_cons, hemit, ih _ (by simp [h1]) (by
        simp only [List.length_append, hwb]
        by_cases hb0 : b.2.length = 0 <;> simp only [hb0, if_pos, if_neg, ite_true,
          ite_false] <;> omega)]
      by_cases hb0 : b.2.length = 0 <;>
        simp [hb0, List.filter_cons, PState.mk.injEq, List.append_assoc] <;>
        omega

theorem emit_normal (limit newH : Nat) (st : PState) (ulen : Nat) (s : List Nat)
    (h1 : st.stuck = false)
    (h2 : st.scratch.length + st.hsize + (8 + s.length) < limit) :
    emit limit newH st ulen s = { st with
      count := st.count + 1,
      scratch := st.scratch ++ CFDATA.writeBytes ⟨0, s.length, ulen, s⟩,
      recs := st.recs ++ if s.length = 0 then [] else [⟨0, s.length, ulen, s⟩] } := by
  unfold emit
  rw [h1]
  simp only [Bool.false_eq_true, if_false, if_pos h2]

theorem emit_split_empty_head (limit newH : Nat) (st : PState) (ulen : Nat) (s : List Nat)
    (h1 : st.stuck = false)
    (h2 : st.scratch.length + st.hsize + 8 = limit) :
    emit limit newH st ulen s = {
      hsize := newH,
      scratch := CFDATA.writeBytes ⟨0, s.length, ulen, s⟩,
      count := 1,
      recs := if s.length = 0 then [] else [⟨0, s.length, ulen, s⟩],
      vols := st.vols ++ [⟨st.scratch.length + st.hsize, limit⟩],
      stuck := false } := by
  unfold emit
  rw [h1]
  simp only [Bool.false_eq_true, if_false]
  rw [if_neg (by omega), if_neg (by omega)]
  have hb0 : limit - (st.scratch.length + st.hsize) - 8 = 0 := by omega
  rw [hb0]
  have hhead : CFDATA.writeBytes ⟨0, 0, 0, s⟩ = [] := by
    simp [CFDATA.writeBytes]
  simp [hhead, Nat.add_comm]

theorem emit_split (limit newH : Nat) (st : PState) (ulen : Nat) (s : List Nat)
    (h1 : st.stuck = false)
    (h2 : ¬ st.scratch.length + st.hsize + (8 + s.length) < limit)
    (h3 : st.scratch.length + st.hsize + 8 ≤ limit) :
    emit limit newH st ulen s = {
      hsize := newH,
      scratch := CFDATA.writeBytes
        ⟨0, s.length - (limit - (st.scratch.length + st.hsize) - 8), ulen,
          s.drop (limit - (st.scratch.length + st.hsize) - 8)⟩,
      count := 1,
      recs := if s.length - (limit - (st.scratch.length + st.hsize) - 8) = 0 then []
        else [⟨0, s.length - (limit - (st.scratch.length + st.hsize) - 8), ulen,
          s.drop (limit - (st.scratch.length + st.hsize) - 8)⟩],
      vols := st.vols ++ [⟨st.hsize + (st.scratch ++ CFDATA.writeBytes
        ⟨0, limit - (st.scratch.length + st.hsize) - 8, 0, s⟩).length, limit⟩],
      stuck := false } := by
  unfold emit
  rw [h1]
  simp only [Bool.false_eq_true, if_false]
  rw [if_neg h2, if_neg (by omega)]

theorem foldl_emit_vols (limit newH : Nat) (blocks : List (Nat × List Nat)) :
    ∀ st : PState,
      (∀ v ∈ st.vols, v.cbCab = limit ∧ (v.diskLen = limit ∨ v.diskLen + 8 = limit)) →
      ∀ v ∈ (blocks.foldl (fun st b => emit limit newH st b.1 b.2) st).vols,
        v.cbCab = limit ∧ (v.diskLen = limit ∨ v.diskLen + 8 = limit) := by
  induction blocks with
  | nil =>
      intro st h
      simpa using h
  | cons b bs ih =>
      intro st h
      rw [List.foldl_cons]
      refine ih _ ?_
      intro v hv
      simp only [emit] at hv
      by_cases hstuck : st.stuck
      · rw [if_pos hstuck] at hv
        exact h v hv
      · rw [if_neg hstuck] at hv
        by_cases hc1 : st.scratch.length + st.hsize + (8 + b.2.length) < limit
        · rw [if_pos hc1] at hv
          exact h v hv
        · rw [if_neg hc1] at hv
          by_cases hc2 : limit < st.scratch.length + st.hsize + 8
          · rw [if_pos hc2] at hv
            exact h v hv
          · rw [if_neg hc2] at hv
            simp only [List.mem_append, List.mem_singleton] at hv
            rcases hv with hv | hv
            · exact h v hv
            · subst hv
              refine ⟨rfl, ?_⟩
              simp only [List.length_append, CFDATA.writeBytes_length]
              split_ifs with hb0
              · omega
              · have hble : limit - (st.scratch.length + st.hsize) - 8 ≤ b.2.length := by
                  omega
                rw [min_eq_left hble]
                omega

/-- C5: for every written DataRecord the checksum field stored in the record
(the first four bytes `CFDATA.Write` lays down) is the spec §4.2 fold applied
first to the payload with seed 0, giving `s`, then to the four packed length
bytes `(compressed_len, uncompressed_len)` with seed `s`. -/
theorem C5_record_checksum (x : CFDATA) (h : x.cbData ≠ 0) :
    x.writeBytes =
      pack4 (specChecksum (pack2 x.cbData ++ pack2 x.cbUncomp)
          (specChecksum (x.data.take x.cbData) 0))
        ++ pack2 x.cbData ++ pack2 x.cbUncomp ++ x.data.take x.cbData := by
  rw [CFDATA.writeBytes, if_neg h, CFDATA.storedCsum, Checksum_eq_specChecksum,
    Checksum_eq_specChecksum]

theorem C5_record_checksum_witness :
    CFDATA.writeBytes ⟨0, 3, 5, [1, 2, 3]⟩ =
      pack4 (specChecksum (pack2 3 ++ pack2 5) (specChecksum ([1, 2, 3].take 3) 0))
        ++ pack2 3 ++ pack2 5 ++ [1, 2, 3].take 3 :=
  C5_record_checksum ⟨0, 3, 5, [1, 2, 3]⟩ (by decide)

/-- C1: when `_write` splits a DataRecord across a volume boundary, the head
record has `uncompressed_len = 0` and `compressed_len = limit - cabsize - 8`,
the tail record carries the original pre-split `ulen` and
`compressed_len = clen - head_bytes`, and the head payload concatenated with
the tail payload is the original compressed block. -/
theorem C1_split_record (limit cabsize ulen : Nat) (s : List Nat)
    (hsplit : ¬ cabsize + 8 + s.length < limit) (hroom : cabsize + 8 ≤ limit) :
    ∃ head tail : CFDATA,
      IOStream.writeRec limit cabsize ulen s = .split head tail ∧
      head.cbUncomp = 0 ∧
      head.cbData = limit - cabsize - 8 ∧
      tail.cbUncomp = ulen ∧
      tail.cbData = s.length - (limit - cabsize - 8) ∧
      head.writtenPayload ++ tail.writtenPayload = s := by
  have heq : IOStream.writeRec limit cabsize ulen s = .split
      ⟨0, limit - cabsize - 8, 0, s⟩
      ⟨0, s.length - (limit - cabsize - 8), ulen, s.drop (limit - cabsize - 8)⟩ := by
    rw [IOStream.writeRec, if_neg (by omega), if_neg (by omega)]
  refine ⟨_, _, heq, rfl, rfl, rfl, rfl, ?_⟩
  simp only [CFDATA.writtenPayload]
  have hlen : (s.drop (limit - cabsize - 8)).length = s.length - (limit - cabsize - 8) := by
    simp
  rw [← hlen, List.take_length, List.take_append_drop]

theorem C1_split_record_witness :
    (¬ 49990 + 8 + (List.replicate 20 7).length < 50000) ∧ 49990 + 8 ≤ 50000 ∧
    (∃ head tail : CFDATA,
      IOStream.writeRec 50000 49990 32768 (List.replicate 20 7) = .split head tail ∧
      head.cbUncomp = 0 ∧
      head.cbData = 50000 - 49990 - 8 ∧
      tail.cbUncomp = 32768 ∧
      tail.cbData = (List.replicate 20 7).length - (50000 - 49990 - 8) ∧
      head.writtenPayload ++ tail.writtenPayload = List.replicate 20 7) :=
  ⟨by decide, by decide,
    C1_split_record 50000 49990 32768 (List.replicate 20 7) (by decide) (by decide)⟩

/-- C4: a file whose bytes cross the volume boundary is written in the
earlier, non-final volume with `folder_index` 0xFFFE when it had a normal
index and 0xFFFF when it was already 0xFFFD; after the earlier volume's
header is written the moved file is restored to 0xFFFD, so the later volume
records it as 0xFFFD or - if it crosses the following boundary as well -
0xFFFF. -/
theorem C4_continuation_markers (cCFData : Nat) (files : List CFFILE) (x : CFFILE)
    (hx : x ∈ files) (hregion : inSplitRegion cCFData x = true) :
    ({ x with iFolder := markIFolder false x.iFolder } ∈ (copycabMark false cCFData files).2) ∧
    (x.iFolder < 0xFFFD → markIFolder false x.iFolder = 0xFFFE) ∧
    (x.iFolder = 0xFFFD → markIFolder false x.iFolder = 0xFFFF) ∧
    (x.iFolder ≤ 0xFFFD →
      restoreIFolder (markIFolder false x.iFolder) = 0xFFFD ∧
      ∀ last : Bool,
        markIFolder last (restoreIFolder (markIFolder false x.iFolder)) = 0xFFFD ∨
        markIFolder last (restoreIFolder (markIFolder false x.iFolder)) = 0xFFFF) := by
  have hmem : ({ x with iFolder := markIFolder false x.iFolder })
      ∈ (copycabMark false cCFData files).2 := by
    unfold copycabMark
    exact List.mem_map_of_mem _ (List.mem_filter.mpr ⟨hx, hregion⟩)
  have hrest : ∀ last : Bool,
      markIFolder last 0xFFFD = 0xFFFD ∨ markIFolder last 0xFFFD = 0xFFFF := by
    intro last
    cases last <;> simp [markIFolder]
  refine ⟨hmem, ?_, ?_, ?_⟩
  · intro hlt
    have h1 : ¬ (x.iFolder = 0xFFFD ∨ x.iFolder = 0xFFFF) := by omega
    simp [markIFolder, h1]
  · intro he
    simp [markIFolder, he]
  · intro hle
    by_cases hifd : x.iFolder = 0xFFFD
    · have hm : markIFolder false x.iFolder = 0xFFFF := by
        simp [markIFolder, hifd]
      rw [hm]
      have hr : restoreIFolder 0xFFFF = 0xFFFD := by simp [restoreIFolder]
      rw [hr]
      exact ⟨rfl, hrest⟩
    · have h1 : ¬ (x.iFolder = 0xFFFD ∨ x.iFolder = 0xFFFF) := by omega
      have hm : markIFolder false x.iFolder = 0xFFFE := by
        simp [markIFolder, h1]
      rw [hm]
      have hr : restoreIFolder 0xFFFE = 0xFFFD := by simp [restoreIFolder]
      rw [hr]
      exact ⟨rfl, hrest⟩

theorem C4_continuation_markers_witness :
    ({ c4file with iFolder := markIFolder false c4file.iFolder }
        ∈ (copycabMark false 1 [c4file]).2) ∧
    (c4file.iFolder < 0xFFFD → markIFolder false c4file.iFolder = 0xFFFE) ∧
    (c4file.iFolder = 0xFFFD → markIFolder false c4file.iFolder = 0xFFFF) ∧
    (c4file.iFolder ≤ 0xFFFD →
      restoreIFolder (markIFolder false c4file.iFolder) = 0xFFFD ∧
      ∀ last : Bool,
        markIFolder last (restoreIFolder (markIFolder false c4file.iFolder)) = 0xFFFD ∨
        markIFolder last (restoreIFolder (markIFolder false c4file.iFolder)) = 0xFFFF) :=
  C4_continuation_markers 1 [c4file] c4file (by decide) (by decide)

/-- C6: `MSZIP.compress` returns the framed DEFLATE output (the `'CK'`
signature, the sync-flushed stream, the finish of the cloned compressor)
unchanged when it is at most 32780 bytes; otherwise it returns exactly the
7-byte prefix `43 4B 01 00 80 FF 7F` followed by the original input bytes,
32775 bytes in total for a full 32768-byte block. -/
theorem C6_mszip_fallback (z1 z2 z3 s : List Nat) :
    (32780 < ([67, 75] ++ z1 ++ z2 ++ z3).length →
      MSZIP.compress z1 z2 z3 s = [67, 75, 1, 0, 128, 255, 127] ++ s ∧
      (s.length = 32768 → (MSZIP.compress z1 z2 z3 s).length = 32775)) ∧
    (¬ 32780 < ([67, 75] ++ z1 ++ z2 ++ z3).length →
      MSZIP.compress z1 z2 z3 s = [67, 75] ++ z1 ++ z2 ++ z3) := by
  constructor
  · intro h
    have he : MSZIP.compress z1 z2 z3 s = [67, 75, 1, 0, 128, 255, 127] ++ s := by
      simp only [MSZIP.compress]
      rw [if_pos h]
    refine ⟨he, fun hs => ?_⟩
    rw [he]
    simp [hs]
  · intro h
    simp only [MSZIP.compress]
    rw [if_neg h]

theorem C6_mszip_fallback_witness :
    (MSZIP.compress (List.replicate 32779 0) [] [] (List.replicate 32768 1)
        = [67, 75, 1, 0, 128, 255, 127] ++ List.replicate 32768 1) ∧
    (MSZIP.compress (List.replicate 32779 0) [] [] (List.replicate 32768 1)).length
        = 32775 := by
  have h := (C6_mszip_fallback (List.replicate 32779 0) [] [] (List.replicate 32768 1)).1
    (by rw [List.length_append, List.length_append, List.length_append,
        List.length_replicate, List.length_nil]; decide)
  exact ⟨h.1, h.2 (by rw [List.length_replicate])⟩

/-- C8: adding an item whose stored name exceeds 255 bytes after encoding is
skipped with a warning only: no error is raised and the archive state (the
item dictionary, the pending queue, and everything reachable from them) is
returned unchanged. -/
theorem C8_long_name_skipped (st : AddState) (itemname nameBytes : List Nat)
    (cp850ok : Bool) (extAttrs : Nat)
    (hh : st.hasHeader = true) (hf : st.hasFolder = true) (ho : st.ioOpen = true)
    (hlen : 255 < nameBytes.length) :
    Cabinet.additem st itemname nameBytes cp850ok extAttrs = .ok st := by
  simp [Cabinet.additem, hh, hf, ho, hlen]

theorem C8_long_name_skipped_witness :
    Cabinet.additem ⟨[], [], true, true, true⟩ [97] (List.replicate 256 97) true 0
      = .ok ⟨[], [], true, true, true⟩ :=
  C8_long_name_skipped ⟨[], [], true, true, true⟩ [97] (List.replicate 256 97) true 0
    rfl rfl rfl (by simp only [List.length_replicate]; norm_num)

/-- C9: while the archive is open (`p.IO` truthy), `Stats` with a zero
total-bytes-read counter fails with a division by zero (modelled as `none`);
the all-zeros tuple is produced exactly when `Close` has set the helper
to 0. -/
theorem C9_stats_division_by_zero (c : IOCounters) (hzero : c.c1 = 0) :
    Cabinet.Stats (some c) = none ∧
    Cabinet.Stats (Cabinet.Close (some c)) = some (0, 0, 0, 0, (0 : ℚ)) ∧
    (∀ x : Option IOCounters,
      Cabinet.Stats x = some (0, 0, 0, 0, (0 : ℚ)) → x = none) := by
  refine ⟨by simp [Cabinet.Stats, hzero], by simp [Cabinet.Stats, Cabinet.Close], ?_⟩
  intro x hx
  cases x with
  | none => rfl
  | some c' =>
      by_cases h : c'.c1 = 0
      · simp [Cabinet.Stats, h] at hx
      · simp [Cabinet.Stats, h] at hx

theorem C9_stats_division_by_zero_witness :
    Cabinet.Stats (some ⟨0, 9, 9, 9⟩) = none ∧
    Cabinet.Stats (Cabinet.Close (some ⟨0, 9, 9, 9⟩)) = some (0, 0, 0, 0, (0 : ℚ)) ∧
    (∀ x : Option IOCounters,
      Cabinet.Stats x = some (0, 0, 0, 0, (0 : ℚ)) → x = none) :=
  C9_stats_division_by_zero ⟨0, 9, 9, 9⟩ rfl

/-- C10: `Disk2CabName` fails with an out-of-range index exactly when the
drive-stripped pathname is empty; on every pathname whose drive-stripped
remainder is non-empty it is total. -/
theorem C10_disk2cabname_total (name strip : List Char) :
    (splitdrive name = [] → Disk2CabName name strip = none) ∧
    (splitdrive name ≠ [] → (Disk2CabName name strip).isSome = true) := by
  constructor
  · intro h
    simp [Disk2CabName, h]
  · intro h
    unfold Disk2CabName
    cases hsd : splitdrive name with
    | nil => exact absurd hsd h
    | cons c rest =>
        simp only [hsd, List.map_cons]
        split_ifs <;> simp

theorem C10_disk2cabname_total_witness :
    Disk2CabName ['C', ':'] [] = none ∧
    (Disk2CabName ['C', ':', '/', 'a'] []).isSome = true :=
  ⟨(C10_disk2cabname_total ['C', ':'] []).1 (by decide),
   (C10_disk2cabname_total ['C', ':', '/', 'a'] []).2 (by decide)⟩

theorem filter_replicate_pos {α : Type} (p : α → Bool) (a : α) (h : p a = true) (n : Nat) :
    (List.replicate n a).filter p = List.replicate n a := by
  induction n with
  | zero => rfl
  | succ k ih =>
      rw [List.replicate_succ, List.filter_cons_of_pos h, ih, ← List.replicate_succ]

theorem storeRun_replicate_aux (limit newH h0 n : Nat) (blkv : List Nat)
    (hbl : blkv.length = 32768)
    (hfit : h0 + (n / 32768 * 32776 + (8 + n % 32768)) < limit) :
    ((List.replicate (n / 32768) ((32768 : Nat), blkv)
        ++ [(n % 32768, List.replicate (n % 32768) 0)]).foldl
      (fun (st : PState) (b : Nat × List Nat) => emit limit newH st b.1 b.2)
      ⟨h0, [], 0, [], [], false⟩).vols = [] ∧
    ((List.replicate (n / 32768) ((32768 : Nat), blkv)
        ++ [(n % 32768, List.replicate (n % 32768) 0)]).foldl
      (fun (st : PState) (b : Nat × List Nat) => emit limit newH st b.1 b.2)
      ⟨h0, [], 0, [], [], false⟩).stuck = false ∧
    ((List.replicate (n / 32768) ((32768 : Nat), blkv)
        ++ [(n % 32768, List.replicate (n % 32768) 0)]).foldl
      (fun (st : PState) (b : Nat × List Nat) => emit limit newH st b.1 b.2)
      ⟨h0, [], 0, [], [], false⟩).count = n / 32768 + 1 ∧
    ((List.replicate (n / 32768) ((32768 : Nat), blkv)
        ++ [(n % 32768, List.replicate (n % 32768) 0)]).foldl
      (fun (st : PState) (b : Nat × List Nat) => emit limit newH st b.1 b.2)
      ⟨h0, [], 0, [], [], false⟩).recs.map CFDATA.cbUncomp =
      (if n % 32768 = 0 then List.replicate (n / 32768) 32768
       else List.replicate (n / 32768) 32768 ++ [n % 32768]) ∧
    ((List.replicate (n / 32768) ((32768 : Nat), blkv)
        ++ [(n % 32768, List.replicate (n % 32768) 0)]).foldl
      (fun (st : PState) (b : Nat × List Nat) => emit limit newH st b.1 b.2)
      ⟨h0, [], 0, [], [], false⟩).recs.length =
      (if n % 32768 = 0 then n / 32768 else n / 32768 + 1) := by
  have hsum : sumSizes (List.replicate (n / 32768) ((32768 : Nat), blkv)
      ++ [(n % 32768, List.replicate (n % 32768) 0)]) = n / 32768 * 32776 + (8 + n % 32768) := by
    simp only [sumSizes, List.map_append, List.map_replicate, List.map_cons, List.map_nil,
      List.sum_append, List.sum_cons, List.sum_nil, hbl, List.length_replicate]
    rw [List.sum_const_nat]
    omega
  have hrun := foldl_emit_no_split limit newH
      (List.replicate (n / 32768) ((32768 : Nat), blkv)
        ++ [(n % 32768, List.replicate (n % 32768) 0)])
      ⟨h0, [], 0, [], [], false⟩ rfl (by rw [hsum]; simpa using hfit)
  have hfil : (List.replicate (n / 32768) ((32768 : Nat), blkv)
      ++ [(n % 32768, List.replicate (n % 32768) 0)]).filter (fun b => b.2.length != 0)
      = List.replicate (n / 32768) ((32768 : Nat), blkv)
        ++ (if n % 32768 = 0 then []
            else [(n % 32768, List.replicate (n % 32768) 0)]) := by
    rw [List.filter_append]
    have hp : ((fun b : Nat × List Nat => b.2.length != 0) ((32768 : Nat), blkv)) = true := by
      simp only [hbl]
      decide
    rw [filter_replicate_pos (fun b : Nat × List Nat => b.2.length != 0)
      ((32768 : Nat), blkv) hp]
    by_cases hr : n % 32768 = 0
    · rw [if_pos hr, hr]
      rw [List.filter_cons_of_neg (by decide), List.filter_nil]
    · rw [if_neg hr]
      rw [List.filter_cons_of_pos (by
        simp only [List.length_replicate, bne_iff_ne, ne_eq]
        exact hr), List.filter_nil]
  rw [hrun]
  refine ⟨rfl, rfl, ?_, ?_, ?_⟩
  · simp only [List.length_append, List.length_replicate, List.length_cons, List.length_nil]
    omega
  · rw [hfil]
    by_cases hr : n % 32768 = 0
    · rw [if_pos hr, if_pos hr, List.append_nil]
      simp only [List.nil_append, List.map_map, List.map_replicate]
    · rw [if_neg hr, if_neg hr]
      simp only [List.nil_append, List.map_append, List.map_map, List.map_replicate,
        List.map_cons, List.map_nil]
  · rw [hfil]
    by_cases hr : n % 32768 = 0
    · rw [if_pos hr, if_pos hr, List.append_nil]
      simp only [List.nil_append, List.length_map, List.length_replicate]
    · rw [if_neg hr, if_neg hr]
      simp only [List.nil_append, List.length_append, List.length_map, List.length_replicate,
        List.length_cons, List.length_nil]

theorem storeRun_replicate (limit newH h0 n : Nat)
    (hfit : h0 + (n / 32768 * 32776 + (8 + n % 32768)) < limit) :
    (storeRun limit newH h0 (List.replicate n 0)).vols = [] ∧
    (storeRun limit newH h0 (List.replicate n 0)).stuck = false ∧
    (storeRun limit newH h0 (List.replicate n 0)).count = n / 32768 + 1 ∧
    (storeRun limit newH h0 (List.replicate n 0)).recs.map CFDATA.cbUncomp =
      (if n % 32768 = 0 then List.replicate (n / 32768) 32768
       else List.replicate (n / 32768) 32768 ++ [n % 32768]) ∧
    (storeRun limit newH h0 (List.replicate n 0)).recs.length =
      (if n % 32768 = 0 then n / 32768 else n / 32768 + 1) := by
  have hblocks : (storeBlocks (List.replicate n 0)).map (fun b => (b.length, b)) =
      List.replicate (n / 32768) ((32768 : Nat), List.replicate 32768 (0 : Nat))
        ++ [(n % 32768, List.replicate (n % 32768) 0)] := by
    rw [storeBlocks_replicate]
    simp only [List.map_append, List.map_replicate, List.map_cons, List.map_nil,
      List.length_replicate]
  unfold storeRun runBlocks
  rw [hblocks]
  exact storeRun_replicate_aux limit newH h0 n (List.replicate 32768 0)
    (List.length_replicate 32768 0) hfit

/-- C7 (amended): an archive built with store compression from exactly one
1,000,000-byte file of zeros under the default 2^32 limit produces a single
volume with a single folder whose written compression type is 0 and exactly
31 DataRecords, both counted and written: 30 full records with
`uncompressed_len = 32768` and one final record with
`uncompressed_len = 16960` (1,000,000 = 30 * 32768 + 16,960).  `h0` is the
size of the volume header with the single file entry. -/
theorem C7_store_single_file (h0 : Nat) (hfit : h0 + 1000248 < 4294967296) :
    (storeRun 4294967296 0 h0 (List.replicate 1000000 0)).vols = [] ∧
    (storeRun 4294967296 0 h0 (List.replicate 1000000 0)).count = 31 ∧
    (storeRun 4294967296 0 h0 (List.replicate 1000000 0)).recs.length = 31 ∧
    (storeRun 4294967296 0 h0 (List.replicate 1000000 0)).recs.map CFDATA.cbUncomp =
      List.replicate 30 32768 ++ [16960] ∧
    writeTypeCompress 0 = 0 := by
  have h := storeRun_replicate 4294967296 0 h0 1000000 (by norm_num; omega)
  have hdiv : (1000000 : Nat) / 32768 = 30 := by norm_num
  have hmod : (1000000 : Nat) % 32768 = 16960 := by norm_num
  rw [hdiv, hmod] at h
  have hne : ¬ (16960 = 0) := by norm_num
  rw [if_neg hne, if_neg hne] at h
  exact ⟨h.1, h.2.2.1, h.2.2.2.2, h.2.2.2.1, rfl⟩

theorem C7_store_single_file_witness :
    (storeRun 4294967296 0 65 (List.replicate 1000000 0)).vols = [] ∧
    (storeRun 4294967296 0 65 (List.replicate 1000000 0)).count = 31 ∧
    (storeRun 4294967296 0 65 (List.replicate 1000000 0)).recs.length = 31 ∧
    (storeRun 4294967296 0 65 (List.replicate 1000000 0)).recs.map CFDATA.cbUncomp =
      List.replicate 30 32768 ++ [16960] ∧
    writeTypeCompress 0 = 0 :=
  C7_store_single_file 65 (by norm_num)

/-- C7 (refutation of the claimed figure): in the S1 scenario the final
DataRecord carries 16,960 uncompressed bytes, not 17,856 as the claim
states - 30 * 32768 + 17,856 would be 1,000,896 bytes, not 1,000,000. -/
theorem C7_last_record_not_17856 :
    (storeRun 4294967296 0 65 (List.replicate 1000000 0)).recs.map CFDATA.cbUncomp ≠
      List.replicate 30 32768 ++ [17856] := by
  have h := storeRun_replicate 4294967296 0 65 1000000 (by norm_num)
  have hdiv : (1000000 : Nat) / 32768 = 30 := by norm_num
  have hmod : (1000000 : Nat) % 32768 = 16960 := by norm_num
  rw [hdiv, hmod] at h
  have hne : ¬ (16960 = 0) := by norm_num
  rw [if_neg hne, if_neg hne] at h
  rw [h.2.2.2.1]
  decide

/-- C3 (code refutation): a folder whose uncompressed stream is exactly one
32768-byte block ends with `cCFData = 2` in the folder entry while only one
DataRecord is written into the volume: the final `_write(end=1)` increments
`cCFData` for the empty leftover buffer before `CFDATA.Write` elides the
empty record (lines 486 and 313-315). -/
theorem C3_count_vs_written_records :
    (storeRun 4294967296 0 65 (List.replicate 32768 0)).count = 2 ∧
    (storeRun 4294967296 0 65 (List.replicate 32768 0)).recs.length = 1 := by
  have h := storeRun_replicate 4294967296 0 65 32768 (by norm_num)
  have hdiv : (32768 : Nat) / 32768 = 1 := by norm_num
  have hmod : (32768 : Nat) % 32768 = 0 := by norm_num
  rw [hdiv, hmod] at h
  rw [if_pos rfl, if_pos rfl] at h
  exact ⟨h.2.2.1, h.2.2.2.2⟩

/-- C2 (amended): every non-final volume produced by a split has
`cbCabinet = limit` and an on-disk size of exactly the limit (or the limit
minus 8 when the computed head record is empty and elided), in either case at
most the limit; and the final volume written by `Flush` has an on-disk byte
count equal to the `cbCabinet` field set at flush to the scratch size plus
the header size. -/
theorem C2_volume_size_and_cbCabinet (limit newH h0 : Nat) (blocks : List (Nat × List Nat))
    (hd : CFHEADER) (scratch : List Nat)
    (hres : hd.abReserve.length = hd.cbCFHeader) :
    (∀ v ∈ (runBlocks limit newH h0 blocks).vols,
        v.cbCab = limit ∧ v.diskLen ≤ limit ∧
          (v.diskLen = limit ∨ v.diskLen + 8 = limit)) ∧
    (flushBytes hd scratch).length = (flushHeader hd scratch).cbCabinet := by
  constructor
  · intro v hv
    have h := foldl_emit_vols limit newH blocks ⟨h0, [], 0, [], [], false⟩
      (by intro w hw; simp at hw) v hv
    refine ⟨h.1, ?_, h.2⟩
    rcases h.2 with h2 | h2 <;> omega
  · have hres2 : (flushHeader hd scratch).abReserve.length
        = (flushHeader hd scratch).cbCFHeader := hres
    have hcb : (flushHeader hd scratch).cbCabinet
        = scratch.length + ({ hd with flags := hd.flags ^^^ 2 } : CFHEADER).size := rfl
    have hsz : (flushHeader hd scratch).size
        = ({ hd with flags := hd.flags ^^^ 2 } : CFHEADER).size := rfl
    unfold flushBytes
    rw [List.length_append, CFHEADER.writeBytes_size_eq _ hres2, hcb, hsz]
    omega

theorem C2_volume_size_and_cbCabinet_witness :
    (∀ v ∈ (runBlocks 65625 100 65
        ((storeBlocks (List.replicate 98304 0)).map fun b => (b.length, b))).vols,
        v.cbCab = 65625 ∧ v.diskLen ≤ 65625 ∧
          (v.diskLen = 65625 ∨ v.diskLen + 8 = 65625)) ∧
    (flushBytes hd0 [1, 2, 3, 4]).length = (flushHeader hd0 [1, 2, 3, 4]).cbCabinet :=
  C2_volume_size_and_cbCabinet 65625 100 65
    ((storeBlocks (List.replicate 98304 0)).map fun b => (b.length, b)) hd0 [1, 2, 3, 4] rfl

theorem C2_elided_head_aux (blkv : List Nat) (hbl : blkv.length = 32768) :
    (((List.replicate 2 ((32768 : Nat), blkv) ++ [((32768 : Nat), blkv)]) ++ [(0, [])]).foldl
      (fun (st : PState) (b : Nat × List Nat) => emit 65625 100 st b.1 b.2)
      ⟨65, [], 0, [], [], false⟩).vols = [⟨65617, 65625⟩] := by
  have hwb : (CFDATA.writeBytes ⟨0, blkv.length, 32768, blkv⟩).length = 32776 := by
    rw [CFDATA.writeBytes_length]
    simp only [hbl]
    norm_num
  rw [List.foldl_append, List.foldl_append]
  rw [foldl_emit_no_split 65625 100 (List.replicate 2 ((32768 : Nat), blkv))
    ⟨65, [], 0, [], [], false⟩ rfl (by
      simp only [sumSizes, List.map_replicate, hbl]
      rw [List.sum_const_nat]
      norm_num)]
  simp only [List.foldl_cons, List.foldl_nil]
  rw [emit_split_empty_head 65625 100 _ 32768 blkv rfl (by
    simp only [List.nil_append, List.length_append, List.length_flatten, List.map_map,
      List.map_replicate, Function.comp, hwb, List.sum_const_nat, List.length_nil])]
  rw [emit_normal 65625 100 _ 0 [] rfl (by
    simp only [hwb, List.length_nil]
    omega)]
  simp only [List.nil_append, List.length_append, List.length_flatten, List.map_map,
    List.map_replicate, Function.comp, hwb, List.sum_const_nat, List.length_nil]

theorem C2_overflow_aux (pv : List Nat) (hl : pv.length = 20000) :
    (runBlocks 50000 49826 49823 [(20000, pv)]).vols = [⟨50000, 50000⟩] ∧
    (runBlocks 50000 49826 49823 [(20000, pv)]).scratch.length = 19839 := by
  have he := emit_split 50000 49826 ⟨49823, [], 0, [], [], false⟩ 20000 pv rfl
    (by simp only [hl, List.length_nil]; omega) (by simp only [List.length_nil]; omega)
  unfold runBlocks
  simp only [List.foldl_cons, List.foldl_nil]
  rw [he]
  constructor
  · simp only [List.nil_append, List.length_nil, CFDATA.writeBytes_length, hl]
    norm_num
  · rw [CFDATA.writeBytes_length]
    simp only [hl, List.length_drop, List.length_nil]
    norm_num

theorem hdOverflow_flush_len (scr : List Nat) :
    (flushBytes hdOverflow scr).length = 49823 + scr.length := by
  have hres : (flushHeader hdOverflow scr).abReserve.length
      = (flushHeader hdOverflow scr).cbCFHeader := rfl
  have hfs : CFFILE.size smallFile = 272 := by
    simp only [CFFILE.size, smallFile, longName, List.length_replicate]
  have hfs2 : CFFILE.size { smallFile with cbFile := 162 } = 272 := by
    simp only [CFFILE.size, smallFile, longName, List.length_replicate]
  have hsz : (flushHeader hdOverflow scr).size = 49823 := by
    simp only [flushHeader, CFHEADER.size, CFHEADER.size1, CFHEADER.size2, hdOverflow,
      List.map_cons, List.map_nil, List.sum_cons, List.sum_nil, CFFOLDER.size,
      List.map_append, List.map_replicate, List.sum_append, hfs, hfs2,
      List.sum_const_nat]
    norm_num
    decide
  unfold flushBytes
  rw [List.length_append, CFHEADER.writeBytes_size_eq _ hres, hsz]

/-- C2 (counterexample to the claim as stated): two of its size properties
fail.  (a) With `limit = 65625` and one store folder of 98,304 = 3 * 32768
bytes, the third block arrives when `cabsize + 8 = limit` exactly, so the
split head record's computed length is 0 and `CFDATA.Write` discards it; the
finalized non-final volume occupies 65,617 bytes on disk while the
`cbCabinet` field written in its header is the limit, 65,625.  (b) With
`limit = 50000` and one store folder of 183 files with 255-byte names
totalling 20,000 content bytes (old header 49,823 bytes, so no record fits
before the closing `_write(1)` splits with head length 169), all 183 entries
lie in the split block and move to the new header (49,826 bytes, 49,823
after `Flush` clears the has-next flag), and `Cabinet.Flush` writes the
final volume with no further size check: 49,823 + 19,839 = 69,662 bytes on
disk, exceeding the 50,000-byte limit. -/
theorem C2_volume_claims_counterexample :
    ((storeRun 65625 100 65 (List.replicate 98304 0)).vols = [⟨65617, 65625⟩] ∧
      (65617 : Nat) ≠ 65625) ∧
    ((runBlocks 50000 49826 49823 [(20000, List.replicate 20000 0)]).vols
        = [⟨50000, 50000⟩] ∧
      (flushBytes hdOverflow
          (runBlocks 50000 49826 49823 [(20000, List.replicate 20000 0)]).scratch).length
        = 69662 ∧
      50000 < 69662) := by
  refine ⟨⟨?_, by norm_num⟩, ?_, ?_, by norm_num⟩
  · have hblocks : (storeBlocks (List.replicate 98304 0)).map (fun b => (b.length, b)) =
        (List.replicate 2 ((32768 : Nat), List.replicate 32768 (0 : Nat))
          ++ [((32768 : Nat), List.replicate 32768 (0 : Nat))]) ++ [(0, [])] := by
      rw [storeBlocks_replicate]
      have hdiv : (98304 : Nat) / 32768 = 3 := by norm_num
      have hmod : (98304 : Nat) % 32768 = 0 := by norm_num
      rw [hdiv, hmod, List.replicate_zero]
      rw [show (3 : Nat) = 2 + 1 from rfl,
        List.replicate_succ' 2 ((List.replicate 32768 (0 : Nat)))]
      simp only [List.map_append, List.map_replicate, List.map_cons, List.map_nil,
        List.length_replicate, List.length_nil]
    unfold storeRun runBlocks
    rw [hblocks]
    exact C2_elided_head_aux (List.replicate 32768 0) (List.length_replicate 32768 0)
  · exact (C2_overflow_aux (List.replicate 20000 0) (List.length_replicate 20000 0)).1
  · rw [hdOverflow_flush_len,
      (C2_overflow_aux (List.replicate 20000 0) (List.length_replicate 20000 0)).2]

end PyCabArc
